import Mathlib

/-!
Verification of the UseCookie cookie broker (src/cookies.ts).

The broker is embedded shallowly:

* JavaScript values that can be stored in a cookie are modelled by the
  mutually inductive type `JSValue` (with `JSArr` / `JSObj` for nested
  arrays and objects).
* The platform cookie store is an association list from cookie names to
  raw string values (`Store`).  The js-cookie codec collaborator and the
  platform write accessor are modelled from the spec's contract for them
  (they are external dependencies, not part of the repository).
* `JSON.stringify` / `JSON.parse` (platform builtins) are modelled by a
  concrete compact JSON encoder `encVal` and a fuel-based recursive
  descent decoder `parseAux`, with a proved round trip on values that
  contain no `undefined`.
* The broker operations `Cookies.get`, `Cookies.set`, `Cookies.subscribe`
  (with its unsubscribe closure), `#startIntercepting`, and the installed
  write interceptor `setter` are translated line by line from
  src/cookies.ts.  Subscriber callbacks are opaque identifiers (`Nat`);
  a notification records which callback fires and with which
  (newValue, oldValue) pair.
-/

namespace UseCookie

/-! ### JavaScript values -/

mutual

/-- Model of the JavaScript values relevant to the broker: `undefined`,
`null`, booleans, (integer) numbers, strings, arrays and objects. -/
inductive JSValue : Type where
  | undef : JSValue
  | null : JSValue
  | bool : Bool → JSValue
  | num : Int → JSValue
  | str : String → JSValue
  | arr : JSArr → JSValue
  | obj : JSObj → JSValue

/-- A JavaScript array of `JSValue`s. -/
inductive JSArr : Type where
  | nil : JSArr
  | cons : JSValue → JSArr → JSArr

/-- A JavaScript object: an ordered list of string keyed fields. -/
inductive JSObj : Type where
  | nil : JSObj
  | cons : String → JSValue → JSObj → JSObj

end

mutual

/-- A value is JSON-serializable when it contains no `undefined` anywhere. -/
def noUndefV : JSValue → Bool
  | .undef => false
  | .arr xs => noUndefA xs
  | .obj fs => noUndefO fs
  | _ => true

/-- All elements of the array are JSON-serializable. -/
def noUndefA : JSArr → Bool
  | .nil => true
  | .cons x xs => noUndefV x && noUndefA xs

/-- All field values of the object are JSON-serializable. -/
def noUndefO : JSObj → Bool
  | .nil => true
  | .cons _ v fs => noUndefV v && noUndefO fs

end

/-! ### Decimal digits for the JSON number encoding -/

/-- Decimal digit character for a digit value below ten. -/
def chrOfDigit (d : Nat) : Char :=
  match d with
  | 0 => '0' | 1 => '1' | 2 => '2' | 3 => '3' | 4 => '4'
  | 5 => '5' | 6 => '6' | 7 => '7' | 8 => '8' | _ => '9'

/-- Numeric value of a decimal digit character. -/
def digitOfChr (c : Char) : Nat := c.toNat - 48

/-- Little-endian decimal digits of `n`, with explicit fuel (`fuel ≥ n`
suffices). -/
def natDigits : Nat → Nat → List Nat
  | 0, _ => []
  | fuel + 1, n => if n = 0 then [] else n % 10 :: natDigits fuel (n / 10)

/-- Decimal encoding (most significant digit first) of a natural number. -/
def encNat (n : Nat) : List Char :=
  if n = 0 then [chrOfDigit 0] else ((natDigits n n).map chrOfDigit).reverse

/-- Decimal encoding of an integer, with a leading minus sign when negative. -/
def encInt (n : Int) : List Char :=
  if n < 0 then '-' :: encNat n.natAbs else encNat n.toNat

/-- Value of a big-endian list of decimal digit characters. -/
def decDigits (l : List Char) : Nat :=
  l.foldl (fun a c => 10 * a + digitOfChr c) 0

/-! ### JSON string escaping -/

/-- Escape a single character for a JSON string literal. -/
def escapeChar (c : Char) : List Char :=
  if c = '"' ∨ c = '\\' then ['\\', c] else [c]

/-- Escape the body of a JSON string literal. -/
def escapeStr : List Char → List Char
  | [] => []
  | c :: cs => escapeChar c ++ escapeStr cs

/-! ### The JSON encoder (model of JSON.stringify) -/

/-- The characters of the JSON literal null. -/
abbrev litNull : List Char := ['n', 'u', 'l', 'l']

/-- The characters of the JSON literal true. -/
abbrev litTrue : List Char := ['t', 'r', 'u', 'e']

/-- The characters of the JSON literal false. -/
abbrev litFalse : List Char := ['f', 'a', 'l', 's', 'e']

mutual

/-- Compact JSON encoding of a value; models the platform builtin
`JSON.stringify` (an external collaborator of the broker).  A nested
`undefined` is encoded as `null`, matching JSON.stringify inside arrays. -/
def encVal : JSValue → List Char
  | .undef => litNull
  | .null => litNull
  | .bool b => if b then litTrue else litFalse
  | .num n => encInt n
  | .str s => '"' :: escapeStr s.data ++ ['"']
  | .arr .nil => ['[', ']']
  | .arr (.cons x xs) => '[' :: (encVal x ++ encArr xs) ++ [']']
  | .obj .nil => ['{', '}']
  | .obj (.cons k v fs) => '{' :: (encField k v ++ encObj fs) ++ ['}']

/-- Encoding of the second and later array elements, each preceded by a
comma. -/
def encArr : JSArr → List Char
  | .nil => []
  | .cons x xs => ',' :: encVal x ++ encArr xs

/-- Encoding of a single object field. -/
def encField (k : String) (v : JSValue) : List Char :=
  '"' :: escapeStr k.data ++ ['"', ':'] ++ encVal v

/-- Encoding of the second and later object fields, each preceded by a
comma. -/
def encObj : JSObj → List Char
  | .nil => []
  | .cons k v fs => ',' :: encField k v ++ encObj fs

end

/-! ### The JSON decoder (model of JSON.parse) -/

/-- Parse the body of a JSON string literal up to the closing quote,
undoing `escapeStr`; returns the decoded characters and the remainder. -/
def parseStrBody : List Char → Option (List Char × List Char)
  | [] => none
  | c :: rest =>
    if c = '"' then some ([], rest)
    else if c = '\\' then
      match rest with
      | [] => none
      | c2 :: rest2 =>
        match parseStrBody rest2 with
        | some (s, r) => some (c2 :: s, r)
        | none => none
    else
      match parseStrBody rest with
      | some (s, r) => some (c :: s, r)
      | none => none

/-- Parse a nonempty run of decimal digits into a natural number. -/
def parseNum (input : List Char) : Option (Nat × List Char) :=
  let ds := input.takeWhile Char.isDigit
  if ds.isEmpty then none
  else some (decDigits ds, input.dropWhile Char.isDigit)

/-- Mode of the JSON parser: a single value, array elements, or object
fields. -/
inductive PMode : Type where
  | pv : PMode
  | pa : PMode
  | po : PMode
deriving Repr, DecidableEq

/-- Intermediate result of the JSON parser, one constructor per mode. -/
inductive PRes : Type where
  | val : JSValue → PRes
  | elems : JSArr → PRes
  | fields : JSObj → PRes

/-- Fuel-based recursive descent JSON parser; models the platform builtin
`JSON.parse`.  In mode `.pv` it parses one value, in mode `.pa` the
remainder of an array after the opening bracket, in mode `.po` the
remainder of an object after the opening brace. -/
def parseAux : Nat → PMode → List Char → Option (PRes × List Char)
  | 0, _, _ => none
  | fuel + 1, .pv, input =>
    if input.take 4 = litNull then some (.val .null, input.drop 4)
    else if input.take 4 = litTrue then some (.val (.bool true), input.drop 4)
    else if input.take 5 = litFalse then some (.val (.bool false), input.drop 5)
    else
      match input with
      | [] => none
      | c :: rest =>
        if c = '"' then
          match parseStrBody rest with
          | some (s, r) => some (.val (.str ⟨s⟩), r)
          | none => none
        else if c = '[' then
          match parseAux fuel .pa rest with
          | some (.elems xs, r) => some (.val (.arr xs), r)
          | _ => none
        else if c = '{' then
          match parseAux fuel .po rest with
          | some (.fields fs, r) => some (.val (.obj fs), r)
          | _ => none
        else if c = '-' then
          match parseNum rest with
          | some (m, r) => some (.val (.num (-(m : Int))), r)
          | none => none
        else if c.isDigit then
          match parseNum (c :: rest) with
          | some (m, r) => some (.val (.num (m : Int)), r)
          | none => none
        else none
  | fuel + 1, .pa, input =>
    match input with
    | [] => none
    | c :: rest =>
      if c = ']' then some (.elems .nil, rest)
      else
        match parseAux fuel .pv (c :: rest) with
        | some (.val v, rest1) =>
          match rest1 with
          | [] => none
          | c1 :: rest2 =>
            if c1 = ',' then
              match parseAux fuel .pa rest2 with
              | some (.elems xs, r) => some (.elems (.cons v xs), r)
              | _ => none
            else if c1 = ']' then some (.elems (.cons v .nil), rest2)
            else none
        | _ => none
  | fuel + 1, .po, input =>
    match input with
    | [] => none
    | c :: rest =>
      if c = '}' then some (.fields .nil, rest)
      else if c = '"' then
        match parseStrBody rest with
        | some (k, rest1) =>
          match rest1 with
          | [] => none
          | c1 :: rest2 =>
            if c1 = ':' then
              match parseAux fuel .pv rest2 with
              | some (.val v, rest3) =>
                match rest3 with
                | [] => none
                | c2 :: rest4 =>
                  if c2 = ',' then
                    match parseAux fuel .po rest4 with
                    | some (.fields fs, r) => some (.fields (.cons ⟨k⟩ v fs), r)
                    | _ => none
                  else if c2 = '}' then some (.fields (.cons ⟨k⟩ v .nil), rest4)
                  else none
              | _ => none
            else none
        | none => none
      else none

/-- Model of the platform builtin `JSON.stringify`. -/
def Json.stringify (v : JSValue) : String := ⟨encVal v⟩

/-- Model of the platform builtin `JSON.parse`: parse a whole string as one
JSON value, failing (like a thrown SyntaxError) on anything else. -/
def Json.parse (s : String) : Option JSValue :=
  match parseAux (2 * s.data.length + 2) .pv s.data with
  | some (.val v, []) => some v
  | _ => none

/-! ### The platform cookie store and the codec collaborator

The broker delegates raw cookie storage to two external collaborators: the
js-cookie codec (`JSCookies.get` / `JSCookies.set` / `JSCookies.remove`)
and the platform's cookie write accessor.  Both are modelled from the
spec's contract for them: a mapping from cookie names to raw string
values, read and written transparently. -/

/-- The platform cookie store: an association list from cookie names to raw
stored string values. -/
abbrev Store : Type := List (String × String)

/-- Read the raw string stored under a name, if any. -/
def storeGet (st : Store) (name : String) : Option String :=
  (st.find? (fun p => p.1 = name)).map (fun p => p.2)

/-- Remove any entry stored under a name. -/
def storeRemove (st : Store) (name : String) : Store :=
  st.filter (fun p => ¬ (p.1 = name))

/-- Store a raw string under a name, replacing any previous entry. -/
def storePut (st : Store) (name value : String) : Store :=
  (name, value) :: storeRemove st name

/-- Cookie attribute options; the broker never inspects these, it passes
them through verbatim to the codec collaborator. -/
structure CookieOptions where
  expires : Option Int := none
  path : Option String := none
  domain : Option String := none
  secure : Option Bool := none
  sameSite : Option String := none
  extra : List (String × String) := []
deriving Repr, DecidableEq

/-- One call made by the broker to the codec collaborator. -/
inductive CodecCall : Type where
  | setC : String → String → CookieOptions → CodecCall
  | removeC : String → CookieOptions → CodecCall

/-- Modelled from the spec: js-cookie `get(name)`, reading the raw stored
string for a name from the platform store. -/
def JSCookies.get (name : String) (st : Store) : Option String :=
  storeGet st name

/-- Modelled from the spec: js-cookie `set(name, rawString, options)`,
storing a raw string under a name (options only affect cookie scoping,
which the store model does not track). -/
def JSCookies.set (name value : String) (_opts : CookieOptions) (st : Store) : Store :=
  storePut st name value

/-- Modelled from the spec: js-cookie `remove(name, options)`, deleting the
cookie stored under a name. -/
def JSCookies.remove (name : String) (_opts : CookieOptions) (st : Store) : Store :=
  storeRemove st name

/-! ### The cookie broker: get and set (src/cookies.ts lines 161-193) -/

/-- Translation of `Cookies.get<T>(name, defaultValue)`: read the raw
string via the codec; return the default when absent; strip a `json:`
prefix and parse the remainder as JSON (a parse failure is returned as
`.error`, modelling the uncaught exception); otherwise return the raw
string.  The JS `res.startsWith("json:")` and `res.slice(5)` are written
as list take and drop on the string's characters. -/
def Cookies.get (name : String) (defaultValue : JSValue) (st : Store) :
    Except String JSValue :=
  match JSCookies.get name st with
  | none => .ok defaultValue
  | some res =>
    if res.data.take 5 = ['j', 's', 'o', 'n', ':'] then
      match Json.parse ⟨res.data.drop 5⟩ with
      | some v => .ok v
      | none => .error res
    else .ok (.str res)

/-- Translation of `Cookies.set<T>(name, value, options)`: `undefined`
deletes via the codec, a string is written verbatim, anything else is
written JSON-encoded behind the `json:` prefix.  The result pairs the
updated store with the codec calls made. -/
def Cookies.set (name : String) (value : JSValue) (opts : CookieOptions)
    (st : Store) : Store × List CodecCall :=
  match value with
  | .undef => (JSCookies.remove name opts st, [.removeC name opts])
  | .str s => (JSCookies.set name s opts st, [.setC name s opts])
  | v =>
    (JSCookies.set name ("json:" ++ Json.stringify v) opts st,
     [.setC name ("json:" ++ Json.stringify v) opts])

/-! ### The subscriber registry (src/cookies.ts lines 56, 138-152) -/

/-- The subscriber registry `Cookies.#subscribers`: cookie names mapped to
the ordered list of subscribed callbacks, each callback an opaque
identifier. -/
abbrev Subscribers : Type := List (String × List Nat)

/-- Registry lookup `Cookies.#subscribers[name]`, with `[]` for the
optional-chaining miss (`?.forEach` on a missing entry runs nothing). -/
def lookupSubs (subs : Subscribers) (name : String) : List Nat :=
  ((subs.find? (fun p => p.1 = name)).map (fun p => p.2)).getD []

/-- Apply a function to the callback list registered under a name. -/
def updateSubs (subs : Subscribers) (name : String)
    (g : List Nat → List Nat) : Subscribers :=
  subs.map (fun p => if p.1 = name then (p.1, g p.2) else p)

/-- Translation of the registry update in `subscribe` (lines 143-146):
create the entry on first use, then push the callback. -/
def addSub (subs : Subscribers) (name : String) (f : Nat) : Subscribers :=
  if (subs.find? (fun p => p.1 = name)).isSome then
    updateSubs subs name (fun l => l ++ [f])
  else subs ++ [(name, [f])]

/-- JavaScript `Array.prototype.indexOf`: first index of the element, or
`-1` when it does not occur. -/
def jsIndexOf (l : List Nat) (x : Nat) : Int :=
  match l.indexOf? x with
  | some i => (i : Int)
  | none => -1

/-- JavaScript `Array.prototype.splice(start)` with the delete count
omitted: every element from the (clamped, possibly negative) start index
to the end is removed, so the prefix before it is what remains. -/
def jsSpliceFrom (l : List Nat) (start : Int) : List Nat :=
  let s : Nat := if start < 0 then ((l.length : Int) + start).toNat
                 else min start.toNat l.length
  l.take s

/-- Translation of the unsubscribe closure returned by `subscribe`
(lines 149-151): `subs[name].splice(subs[name].indexOf(f))`. -/
def unsubscribeFn (name : String) (f : Nat) (subs : Subscribers) : Subscribers :=
  updateSubs subs name (fun l => jsSpliceFrom l (jsIndexOf l f))

/-! ### Interception (src/cookies.ts lines 59-152) -/

/-- The platform environment observed during installation:
`navigator.cookieEnabled` and whether the `document.cookie` property
descriptor is configurable. -/
structure Env where
  cookieEnabled : Bool
  configurable : Bool
deriving Repr, DecidableEq

/-- The broker's process-wide mutable state: the subscriber registry, the
`#isIntercepting` flag, whether the replacement accessor is currently
installed, and how many times `Object.defineProperty` has been run on the
accessor (to state that installation happens at most once). -/
structure BrokerState where
  subscribers : Subscribers
  isIntercepting : Bool
  installed : Bool
  installCount : Nat

/-- Translation of `Cookies.#startIntercepting` (lines 62-130): return if
the flag is set; return if cookies are disabled; return (log only) if the
accessor is not configurable; otherwise install the replacement accessor
and set the flag. -/
def startIntercepting (env : Env) (s : BrokerState) : BrokerState :=
  if s.isIntercepting then s
  else if ¬ env.cookieEnabled then s
  else if ¬ env.configurable then s
  else { s with installed := true, installCount := s.installCount + 1,
                isIntercepting := true }

/-- Translation of `Cookies.subscribe` (lines 138-152): ensure interception
is installed, then register the callback under the name. -/
def subscribe (env : Env) (name : String) (f : Nat) (s : BrokerState) :
    BrokerState :=
  let s1 := startIntercepting env s
  { s1 with subscribers := addSub s1.subscribers name f }

/-- Modelled from the spec: the platform's original cookie write accessor.
A write shaped `name=value;attributes` stores `value` under `name`
(scoping attributes are not tracked by the store model); a write with no
`=` does not change the store. -/
def setCookie (st : Store) (raw : String) : Store :=
  if raw.data.contains '=' then
    storePut st ⟨raw.data.takeWhile (fun c => ¬ (c = '='))⟩
      ⟨((raw.data.dropWhile (fun c => ¬ (c = '='))).tail).takeWhile
        (fun c => ¬ (c = ';'))⟩
  else st

/-- Cookie name extraction in the interceptor (line 104):
`value.substring(0, value.indexOf("="))`, the characters strictly before
the first `=`. -/
def cookieNameOf (value : String) : String :=
  ⟨value.data.takeWhile (fun c => ¬ (c = '='))⟩

/-- Result of one write through the installed accessor: the updated store,
the raw strings forwarded to the original setter (in order), and the
notifications dispatched, each one a callback identifier with the
`(newValue, oldValue)` pair it receives, in registry order. -/
structure WriteResult where
  store : Store
  rawWrites : List String
  notifs : List (Nat × JSValue × JSValue)

/-- Translation of the replacement write accessor `setter` (lines 97-126):
pass a write with no `=` through unchanged; otherwise read the old value
with a null default, perform the real write via the original setter, read
the new value, and notify every callback registered for the name, in
order, with `(newValue, oldValue)`.  An uncaught parse error from either
read propagates as `.error`. -/
def interceptSet (subs : Subscribers) (st : Store) (value : String) :
    Except String WriteResult :=
  if ¬ value.data.contains '=' then
    .ok ⟨setCookie st value, [value], []⟩
  else
    let name := cookieNameOf value
    match Cookies.get name .null st with
    | .error e => .error e
    | .ok oldValue =>
      let st1 := setCookie st value
      match Cookies.get name .null st1 with
      | .error e => .error e
      | .ok newValue =>
        .ok ⟨st1, [value],
          (lookupSubs subs name).map (fun f => (f, newValue, oldValue))⟩

/-- A write to `document.cookie`: through the replacement accessor when it
is installed, directly through the original setter (and hence with no
notifications) when it is not. -/
def writeCookie (installed : Bool) (subs : Subscribers) (st : Store)
    (raw : String) : Except String WriteResult :=
  if installed then interceptSet subs st raw
  else .ok ⟨setCookie st raw, [raw], []⟩

/-! ### Basic store lemmas -/

theorem storeGet_storePut_same (st : Store) (name v : String) :
    storeGet (storePut st name v) name = some v := by
  simp [storeGet, storePut, List.find?]

theorem storeGet_storeRemove_same (st : Store) (name : String) :
    storeGet (storeRemove st name) name = none := by
  have h : (storeRemove st name).find? (fun p => p.1 = name) = none := by
    refine List.find?_eq_none.2 (fun x hx => ?_)
    rcases List.mem_filter.1 hx with ⟨-, hq⟩
    simpa using hq
  simp [storeGet, h]

theorem data_json_append (s : String) :
    ("json:" ++ s).data = 'j' :: 's' :: 'o' :: 'n' :: ':' :: s.data := by
  rw [String.data_append]; rfl

theorem take5_json (s : String) :
    ("json:" ++ s).data.take 5 = ['j', 's', 'o', 'n', ':'] := by
  rw [String.data_append]
  exact List.take_left' rfl

theorem drop5_json (s : String) :
    ("json:" ++ s).data.drop 5 = s.data := by
  rw [String.data_append]
  exact List.drop_left' rfl

/-! ### Lemmas about Cookies.get over the store -/

theorem cookies_get_absent (name : String) (d : JSValue) (st : Store)
    (h : storeGet st name = none) : Cookies.get name d st = .ok d := by
  unfold Cookies.get JSCookies.get
  rw [h]

theorem cookies_get_storePut (st : Store) (name : String) (d : JSValue)
    (v : String) :
    Cookies.get name d (storePut st name v) =
      (if v.data.take 5 = ['j', 's', 'o', 'n', ':'] then
        match Json.parse ⟨v.data.drop 5⟩ with
        | some w => Except.ok w
        | none => Except.error v
      else .ok (.str v)) := by
  unfold Cookies.get JSCookies.get
  rw [storeGet_storePut_same]

theorem cookies_get_json_stored (st : Store) (name : String) (d : JSValue)
    (s : String) (h : storeGet st name = some ("json:" ++ s)) :
    Cookies.get name d st =
      (match Json.parse s with
       | some w => Except.ok w
       | none => Except.error ("json:" ++ s)) := by
  unfold Cookies.get JSCookies.get
  rw [h]
  dsimp only
  rw [if_pos (take5_json s), drop5_json]

/-- Shared helper: a plain string whose first five characters are not
`json:` survives a set / get round trip verbatim. -/
theorem get_set_str_aux (name v : String) (d : JSValue) (opts : CookieOptions)
    (st : Store) (h : ¬ v.data.take 5 = ['j', 's', 'o', 'n', ':']) :
    Cookies.get name d (Cookies.set name (.str v) opts st).1 = .ok (.str v) := by
  show Cookies.get name d (storePut st name v) = _
  rw [cookies_get_storePut, if_neg h]

/-! ### Claim C3 (corrected): string round trip -/

/-- C3 (counterexample): the claim "for every string value v, set then get
returns v exactly" fails at the string "json:0": the stored value is
misread through the reserved prefix and comes back as the number 0. -/
theorem c3_counterexample :
    Cookies.get "n" (.str "d") (Cookies.set "n" (.str "json:0") {} []).1 ≠
      .ok (.str "json:0") := by
  intro h
  rw [show Cookies.get "n" (.str "d") (Cookies.set "n" (.str "json:0") {} []).1
        = .ok (.num 0) from rfl] at h
  injection h with h1
  exact JSValue.noConfusion h1

/-- C3 (amended): for every string value v whose first five characters are
not the reserved prefix `json:`, and every name, default and options,
`set(name, v)` followed by `get(name, default)` returns v exactly. -/
theorem c3_string_roundtrip (name v : String) (d : JSValue)
    (opts : CookieOptions) (st : Store)
    (h : ¬ v.data.take 5 = ['j', 's', 'o', 'n', ':']) :
    Cookies.get name d (Cookies.set name (.str v) opts st).1 = .ok (.str v) :=
  get_set_str_aux name v d opts st h

/-- Witness for C3: the round trip holds at the concrete string "hello". -/
theorem c3_witness :
    ¬ ("hello" : String).data.take 5 = ['j', 's', 'o', 'n', ':'] ∧
      Cookies.get "n" .null (Cookies.set "n" (.str "hello") {} []).1 =
        .ok (.str "hello") :=
  ⟨by decide, c3_string_roundtrip "n" "hello" .null {} [] (by decide)⟩

/-! ### Claim C7: absent cookie default, and deletion via undefined -/

/-- C7: when no cookie is stored under the name, `get` returns the default
unchanged (and raises no error); and over an arbitrary store -- in
particular one that does hold a cookie under the name --
`set(name, undefined, options)` deletes it via the codec's remove with
those options, so the entry is gone and a subsequent `get` returns the
default. -/
theorem c7_get_default_and_undef_deletes (name : String) (d : JSValue)
    (opts : CookieOptions) (st st2 : Store) (h : storeGet st name = none) :
    Cookies.get name d st = .ok d
    ∧ Cookies.set name .undef opts st2 =
        (JSCookies.remove name opts st2, [CodecCall.removeC name opts])
    ∧ storeGet (Cookies.set name .undef opts st2).1 name = none
    ∧ Cookies.get name d (Cookies.set name .undef opts st2).1 = .ok d :=
  ⟨cookies_get_absent name d st h, rfl,
   storeGet_storeRemove_same st2 name,
   cookies_get_absent name d _ (storeGet_storeRemove_same st2 name)⟩

/-- Witness for C7: the default is returned for a store with no entry for
the name, and deletion is exercised on a store that does hold a cookie
under the name. -/
theorem c7_witness :
    storeGet [("other", "x")] "n" = none ∧
      (Cookies.get "n" (.num 7) [("other", "x")] = .ok (.num 7)
       ∧ Cookies.set "n" .undef {} [("n", "stored"), ("other", "x")] =
           (JSCookies.remove "n" {} [("n", "stored"), ("other", "x")],
            [CodecCall.removeC "n" {}])
       ∧ storeGet
           (Cookies.set "n" .undef {} [("n", "stored"), ("other", "x")]).1
           "n" = none
       ∧ Cookies.get "n" (.num 7)
           (Cookies.set "n" .undef {} [("n", "stored"), ("other", "x")]).1 =
           .ok (.num 7)) :=
  ⟨by decide,
   c7_get_default_and_undef_deletes "n" (.num 7) {} [("other", "x")]
     [("n", "stored"), ("other", "x")] (by decide)⟩

/-! ### Claim C8: corrupt json-prefixed value is fatal -/

/-- C8: a stored value that starts with `json:` and whose remainder fails
to parse makes `get` propagate the failure to its caller instead of
catching it or returning the default. -/
theorem c8_corrupt_json_propagates (name : String) (d : JSValue) (st : Store)
    (r : String) (hstore : storeGet st name = some ("json:" ++ r))
    (hbad : Json.parse r = none) :
    Cookies.get name d st = .error ("json:" ++ r) := by
  rw [cookies_get_json_stored st name d r hstore, hbad]

/-- Witness for C8 at the stored value "json:x", whose remainder "x" is not
valid JSON. -/
theorem c8_witness :
    (storeGet [("n", "json:x")] "n" = some ("json:" ++ "x")
     ∧ Json.parse "x" = none) ∧
      Cookies.get "n" (.num 7) [("n", "json:x")] = .error ("json:" ++ "x") :=
  ⟨⟨by decide, rfl⟩,
   c8_corrupt_json_propagates "n" (.num 7) [("n", "json:x")] "x" (by decide) rfl⟩

/-! ### Claim C10: null is stored, not deleted -/

/-- C10: `set(name, null, options)` does not delete the cookie: null is
neither the deletion sentinel nor a string, so it is stored through the
codec's set as the string "json:null", and a subsequent `get` returns
null rather than the default. -/
theorem c10_set_null_stores_json_null (name : String) (opts : CookieOptions)
    (st : Store) (d : JSValue) :
    Cookies.set name .null opts st =
      (JSCookies.set name "json:null" opts st,
       [CodecCall.setC name "json:null" opts])
    ∧ Cookies.get name d (Cookies.set name .null opts st).1 = .ok .null := by
  have h1 : ("json:" ++ Json.stringify JSValue.null) = "json:null" := by
    rw [show Json.stringify JSValue.null = "null" by simp [Json.stringify, encVal, litNull]]
    decide
  constructor
  · show (JSCookies.set name ("json:" ++ Json.stringify JSValue.null) opts st,
          [CodecCall.setC name ("json:" ++ Json.stringify JSValue.null) opts]) = _
    rw [h1]
  · show Cookies.get name d
        (storePut st name ("json:" ++ Json.stringify JSValue.null)) = _
    rw [h1, cookies_get_storePut]
    rfl

/-! ### Claim C1 (code bug): the unsubscribe closure -/

/-- C1 (code evaluation at the failing input): with callbacks 0 and 1
registered for "n" in that order, invoking the unsubscribe closure for
callback 0 empties the whole entry — `splice(indexOf(f))` with no delete
count removes callback 1 as well.  Invoking it again when 0 is no longer
present does not remove nothing: `indexOf` returns -1 and `splice(-1)`
removes the last remaining callback (shown both on [1] and on [1, 2]).
This contradicts the claim that exactly `f` is removed and that repeated
calls remove nothing further. -/
theorem c1_unsubscribe_splice_bug :
    unsubscribeFn "n" 0 [("n", [0, 1])] = [("n", [])]
    ∧ unsubscribeFn "n" 0 [("n", [1])] = [("n", [])]
    ∧ unsubscribeFn "n" 0 [("n", [1, 2])] = [("n", [1])] := by
  refine ⟨?_, ?_, ?_⟩ <;> rfl

/-! ### Claim C4: the interceptor installs at most once -/

/-- C4: once the interception flag is set, `startIntercepting` is a no-op
(the accessor is not replaced again), and `subscribe` only performs its
registry update; moreover a successful installation from a clean state
sets the flag and runs the accessor replacement exactly once. -/
theorem c4_install_once (env : Env) (s : BrokerState) (name : String)
    (f : Nat) (h : s.isIntercepting = true) :
    startIntercepting env s = s
    ∧ subscribe env name f s =
        { s with subscribers := addSub s.subscribers name f }
    ∧ (∀ s0 : BrokerState, env.cookieEnabled = true → env.configurable = true →
        s0.isIntercepting = false →
        (startIntercepting env s0).isIntercepting = true
        ∧ (startIntercepting env s0).installCount = s0.installCount + 1) := by
  refine ⟨?_, ?_, ?_⟩
  · simp [startIntercepting, h]
  · simp [subscribe, startIntercepting, h]
  · intro s0 hc hg h0
    simp [startIntercepting, h0, hc, hg]

/-- Witness for C4 at a state whose interception flag is already set. -/
theorem c4_witness :
    (⟨[], true, true, 1⟩ : BrokerState).isIntercepting = true
    ∧ (startIntercepting ⟨true, true⟩ ⟨[], true, true, 1⟩ = ⟨[], true, true, 1⟩
       ∧ subscribe ⟨true, true⟩ "n" 0 ⟨[], true, true, 1⟩ =
           { (⟨[], true, true, 1⟩ : BrokerState) with
               subscribers := addSub [] "n" 0 }
       ∧ (∀ s0 : BrokerState, (⟨true, true⟩ : Env).cookieEnabled = true →
           (⟨true, true⟩ : Env).configurable = true →
           s0.isIntercepting = false →
           (startIntercepting ⟨true, true⟩ s0).isIntercepting = true
           ∧ (startIntercepting ⟨true, true⟩ s0).installCount =
               s0.installCount + 1)) :=
  ⟨rfl, c4_install_once ⟨true, true⟩ ⟨[], true, true, 1⟩ "n" 0 rfl⟩

/-! ### Claim C5: degraded mode -/

/-- C5: with cookies disabled or a non-configurable accessor, subscribing
performs no installation and raises nothing: the flag stays unset, the
accessor stays original, only the registry is updated; every write then
goes through the original setter and notifies nobody; and get / set keep
functioning through the codec (string round trip shown). -/
theorem c5_degraded_mode (env : Env) (s : BrokerState) (name : String)
    (f : Nat)
    (henv : env.cookieEnabled = false ∨ env.configurable = false)
    (hflag : s.isIntercepting = false) (hinst : s.installed = false) :
    (subscribe env name f s).isIntercepting = false
    ∧ (subscribe env name f s).installed = false
    ∧ (subscribe env name f s).installCount = s.installCount
    ∧ (subscribe env name f s).subscribers = addSub s.subscribers name f
    ∧ (∀ st raw, writeCookie (subscribe env name f s).installed
        (subscribe env name f s).subscribers st raw =
          .ok ⟨setCookie st raw, [raw], []⟩)
    ∧ (∀ n v d opts st, ¬ (v : String).data.take 5 = ['j', 's', 'o', 'n', ':'] →
        Cookies.get n d (Cookies.set n (.str v) opts st).1 = .ok (.str v)) := by
  have hsub : subscribe env name f s =
      { s with subscribers := addSub s.subscribers name f } := by
    rcases henv with h | h
    · simp [subscribe, startIntercepting, hflag, h]
    · cases hce : env.cookieEnabled <;>
        simp [subscribe, startIntercepting, hflag, h, hce]
  rw [hsub]
  refine ⟨hflag, hinst, rfl, rfl, ?_, ?_⟩
  · intro st raw
    simp [writeCookie, hinst]
  · intro n v d opts st h
    exact get_set_str_aux n v d opts st h

/-- Witness for C5: cookies disabled, clean state. -/
theorem c5_witness :
    ((⟨false, true⟩ : Env).cookieEnabled = false ∨
      (⟨false, true⟩ : Env).configurable = false)
    ∧ (subscribe ⟨false, true⟩ "n" 0 ⟨[], false, false, 0⟩).isIntercepting = false
    ∧ (subscribe ⟨false, true⟩ "n" 0 ⟨[], false, false, 0⟩).installed = false
    ∧ (∀ st raw, writeCookie
        (subscribe ⟨false, true⟩ "n" 0 ⟨[], false, false, 0⟩).installed
        (subscribe ⟨false, true⟩ "n" 0 ⟨[], false, false, 0⟩).subscribers st raw =
          .ok ⟨setCookie st raw, [raw], []⟩) :=
  ⟨Or.inl rfl,
   (c5_degraded_mode ⟨false, true⟩ ⟨[], false, false, 0⟩ "n" 0 (Or.inl rfl)
      rfl rfl).1,
   (c5_degraded_mode ⟨false, true⟩ ⟨[], false, false, 0⟩ "n" 0 (Or.inl rfl)
      rfl rfl).2.1,
   (c5_degraded_mode ⟨false, true⟩ ⟨[], false, false, 0⟩ "n" 0 (Or.inl rfl)
      rfl rfl).2.2.2.2.1⟩

/-! ### Claim C2: behaviour of the installed write accessor -/

/-- C2: a write with no = passes through unchanged to the original setter
with no notification; otherwise the name is the substring before the
first =, the old value is read with a null default before the real write,
the real write goes through the original setter unaltered, the new value
is read after it, and every callback registered for the name is notified
in registry order with (newValue, oldValue), on every such write. -/
theorem c2_interceptor_write (subs : Subscribers) (st : Store)
    (value : String) (old new : JSValue)
    (hhas : value.data.contains '=' = true)
    (hold : Cookies.get (cookieNameOf value) .null st = .ok old)
    (hnew : Cookies.get (cookieNameOf value) .null (setCookie st value) =
      .ok new) :
    interceptSet subs st value =
      .ok ⟨setCookie st value, [value],
        (lookupSubs subs (cookieNameOf value)).map (fun f => (f, new, old))⟩
    ∧ ∀ v2 : String, v2.data.contains '=' = false →
        interceptSet subs st v2 = .ok ⟨setCookie st v2, [v2], []⟩ := by
  have hmem : '=' ∈ value.data := by simpa using hhas
  constructor
  · simp [interceptSet, hmem, hold, hnew]
  · intro v2 h2
    have hmem2 : ¬ '=' ∈ v2.data := by simpa using h2
    simp [interceptSet, hmem2]

/-- Witness for C2 at the raw write "a=1" against an empty store, with one
callback registered for "a". -/
theorem c2_witness :
    (("a=1" : String).data.contains '=' = true
     ∧ Cookies.get (cookieNameOf "a=1") .null [] = .ok .null
     ∧ Cookies.get (cookieNameOf "a=1") .null (setCookie [] "a=1") =
         .ok (.str "1"))
    ∧ interceptSet [("a", [0])] [] "a=1" =
        .ok ⟨setCookie [] "a=1", ["a=1"],
          (lookupSubs [("a", [0])] (cookieNameOf "a=1")).map
            (fun f => (f, JSValue.str "1", JSValue.null))⟩ :=
  ⟨⟨rfl, rfl, rfl⟩,
   (c2_interceptor_write [("a", [0])] [] "a=1" .null (.str "1") rfl rfl rfl).1⟩

/-! ### Claim C9: absent cookie reported as null -/

/-- C9: when no cookie is stored under the written name, the interceptor's
old-value read (get with a null default) yields null, so every notified
callback receives oldValue = null; and a stored structured null
("json:null") is read back identically, so the two are indistinguishable
to subscribers. -/
theorem c9_absent_old_is_null (subs : Subscribers) (st : Store)
    (value : String) (new : JSValue)
    (hhas : value.data.contains '=' = true)
    (habsent : storeGet st (cookieNameOf value) = none)
    (hnew : Cookies.get (cookieNameOf value) .null (setCookie st value) =
      .ok new) :
    interceptSet subs st value =
      .ok ⟨setCookie st value, [value],
        (lookupSubs subs (cookieNameOf value)).map
          (fun f => (f, new, JSValue.null))⟩
    ∧ Cookies.get (cookieNameOf value) .null st = .ok .null
    ∧ ∀ st2 : Store, storeGet st2 (cookieNameOf value) = some "json:null" →
        Cookies.get (cookieNameOf value) .null st2 = .ok .null := by
  have h0 : Cookies.get (cookieNameOf value) .null st = .ok .null :=
    cookies_get_absent _ _ _ habsent
  have hmem : '=' ∈ value.data := by simpa using hhas
  refine ⟨?_, h0, ?_⟩
  · simp [interceptSet, hmem, h0, hnew]
  · intro st2 h2
    rw [show ("json:null" : String) = "json:" ++ "null" by decide] at h2
    rw [cookies_get_json_stored st2 _ _ "null" h2]
    rfl

/-- Witness for C9: an external write theme=dark with no cookie stored
under "theme" and one subscriber registered for it. -/
theorem c9_witness :
    (("theme=dark" : String).data.contains '=' = true
     ∧ storeGet [] (cookieNameOf "theme=dark") = none
     ∧ Cookies.get (cookieNameOf "theme=dark") .null
         (setCookie [] "theme=dark") = .ok (.str "dark"))
    ∧ interceptSet [("theme", [5])] [] "theme=dark" =
        .ok ⟨setCookie [] "theme=dark", ["theme=dark"],
          (lookupSubs [("theme", [5])] (cookieNameOf "theme=dark")).map
            (fun f => (f, JSValue.str "dark", JSValue.null))⟩ :=
  ⟨⟨rfl, rfl, rfl⟩,
   (c9_absent_old_is_null [("theme", [5])] [] "theme=dark" (.str "dark")
      rfl rfl rfl).1⟩

/-! ### Round trip of the JSON model: decimal digits -/

theorem natDigits_eq_digits : ∀ fuel n, n ≤ fuel →
    natDigits fuel n = Nat.digits 10 n := by
  intro fuel
  induction fuel with
  | zero =>
    intro n hn
    interval_cases n
    simp [natDigits]
  | succ fuel ih =>
    intro n hn
    by_cases h0 : n = 0
    · simp [natDigits, h0]
    · rw [natDigits, if_neg h0,
        @Nat.digits_def' 10 (by norm_num) n (Nat.pos_of_ne_zero h0),
        ih (n / 10) (by omega)]

theorem digitVal_digitChar {d : Nat} (h : d < 10) :
    digitOfChr (chrOfDigit d) = d := by
  interval_cases d <;> decide

theorem isDigit_digitChar {d : Nat} (h : d < 10) :
    (chrOfDigit d).isDigit = true := by
  interval_cases d <;> decide

theorem encNat_ne_nil (n : Nat) : encNat n ≠ [] := by
  unfold encNat
  by_cases h0 : n = 0
  · simp [h0]
  · rw [if_neg h0]
    simp [natDigits_eq_digits n n le_rfl,
      Nat.digits_ne_nil_iff_ne_zero.2 h0]

theorem mem_encNat_isDigit (n : Nat) : ∀ c ∈ encNat n, c.isDigit = true := by
  unfold encNat
  by_cases h0 : n = 0
  · simp [h0]
    decide
  · rw [if_neg h0]
    intro c hc
    rw [List.mem_reverse, List.mem_map] at hc
    obtain ⟨d, hd, rfl⟩ := hc
    rw [natDigits_eq_digits n n le_rfl] at hd
    exact isDigit_digitChar (Nat.digits_lt_base (by norm_num) hd)

theorem foldr_ofDigits (l : List Nat) :
    l.foldr (fun d a => 10 * a + d) 0 = Nat.ofDigits 10 l := by
  induction l with
  | nil => simp [Nat.ofDigits]
  | cons d l ih =>
    rw [List.foldr_cons, ih, Nat.ofDigits_cons]
    omega

theorem decDigits_digits_reverse (l : List Nat) (h : ∀ d ∈ l, d < 10) :
    decDigits ((l.map chrOfDigit).reverse) = Nat.ofDigits 10 l := by
  rw [decDigits, ← List.map_reverse, List.foldl_map, List.foldl_reverse,
    ← foldr_ofDigits]
  induction l with
  | nil => rfl
  | cons d l ih =>
    rw [List.foldr_cons, List.foldr_cons,
      ih (fun x hx => h x (List.mem_cons_of_mem d hx)),
      digitVal_digitChar (h d (List.mem_cons_self d l))]

theorem decDigits_encNat (n : Nat) : decDigits (encNat n) = n := by
  unfold encNat
  by_cases h0 : n = 0
  · simp [h0]; decide
  · rw [if_neg h0, natDigits_eq_digits n n le_rfl,
      decDigits_digits_reverse _ (fun d hd => Nat.digits_lt_base (by norm_num) hd),
      Nat.ofDigits_digits]

/-! ### Round trip of the JSON model: takeWhile over an encoded number -/

/-- True when the input does not begin with a decimal digit, so a number
parse cannot absorb it. -/
def noDigitStart : List Char → Bool
  | [] => true
  | c :: _ => !c.isDigit

theorem takeWhile_append_all {p : Char → Bool} {l : List Char}
    (h : ∀ c ∈ l, p c = true) (r : List Char) :
    (l ++ r).takeWhile p = l ++ r.takeWhile p := by
  induction l with
  | nil => simp
  | cons c l ih =>
    rw [List.cons_append, List.takeWhile_cons, h c (List.mem_cons_self c l),
      ih (fun x hx => h x (List.mem_cons_of_mem c hx))]
    simp

theorem dropWhile_append_all {p : Char → Bool} {l : List Char}
    (h : ∀ c ∈ l, p c = true) (r : List Char) :
    (l ++ r).dropWhile p = r.dropWhile p := by
  induction l with
  | nil => simp
  | cons c l ih =>
    rw [List.cons_append, List.dropWhile_cons,
      ih (fun x hx => h x (List.mem_cons_of_mem c hx))]
    simp [h c (List.mem_cons_self c l)]

theorem takeWhile_noDigitStart {r : List Char} (h : noDigitStart r = true) :
    r.takeWhile Char.isDigit = [] := by
  cases r with
  | nil => rfl
  | cons c t =>
    rw [List.takeWhile_cons]
    simp only [noDigitStart, Bool.not_eq_true'] at h
    simp [h]

theorem dropWhile_noDigitStart {r : List Char} (h : noDigitStart r = true) :
    r.dropWhile Char.isDigit = r := by
  cases r with
  | nil => rfl
  | cons c t =>
    rw [List.dropWhile_cons]
    simp only [noDigitStart, Bool.not_eq_true'] at h
    simp [h]

theorem parseNum_encNat (m : Nat) {rest : List Char}
    (h : noDigitStart rest = true) :
    parseNum (encNat m ++ rest) = some (m, rest) := by
  unfold parseNum
  rw [takeWhile_append_all (mem_encNat_isDigit m) rest,
    takeWhile_noDigitStart h, List.append_nil,
    dropWhile_append_all (mem_encNat_isDigit m) rest,
    dropWhile_noDigitStart h]
  simp [List.isEmpty_iff, encNat_ne_nil m, decDigits_encNat]

/-! ### Round trip of the JSON model: string bodies -/

theorem parseStrBody_escape : ∀ (l rest : List Char),
    parseStrBody (escapeStr l ++ '"' :: rest) = some (l, rest) := by
  intro l
  induction l with
  | nil =>
    intro rest
    rw [show escapeStr [] ++ '"' :: rest = '"' :: rest from rfl]
    unfold parseStrBody
    simp
  | cons c cs ih =>
    intro rest
    by_cases hc : c = '"' ∨ c = '\\'
    · have h1 : escapeStr (c :: cs) ++ '"' :: rest
          = '\\' :: c :: (escapeStr cs ++ '"' :: rest) := by
        rw [escapeStr, escapeChar, if_pos hc]
        simp
      rw [h1]
      unfold parseStrBody
      rw [if_neg (by decide), if_pos rfl]
      try dsimp only
      rw [ih rest]
    · have h1 : escapeStr (c :: cs) ++ '"' :: rest
          = c :: (escapeStr cs ++ '"' :: rest) := by
        rw [escapeStr, escapeChar, if_neg hc]
        simp
      push_neg at hc
      rw [h1]
      unfold parseStrBody
      rw [if_neg hc.1, if_neg hc.2]
      try dsimp only
      rw [ih rest]

/-! ### Round trip of the JSON model: head shapes and sizes -/

theorem head_eq_of_take_eq {n : Nat} (hn : n ≠ 0) {c d : Char}
    {t k : List Char} (h : (c :: t).take n = d :: k) : c = d := by
  cases n with
  | zero => exact absurd rfl hn
  | succ m =>
    rw [List.take_succ_cons] at h
    injection h

theorem take_ne_of_head_ne {c d : Char} (hcd : ¬ c = d) {n : Nat}
    (hn : n ≠ 0) (t k : List Char) : ¬ (c :: t).take n = d :: k :=
  fun h => hcd (head_eq_of_take_eq hn h)

theorem ne_of_isDigit {c d : Char} (h : c.isDigit = true)
    (h2 : d.isDigit = false) : ¬ c = d := by
  intro he
  rw [he, h2] at h
  cases h

theorem encNat_head (m : Nat) :
    ∃ c t, encNat m = c :: t ∧ c.isDigit = true := by
  cases he : encNat m with
  | nil => exact absurd he (encNat_ne_nil m)
  | cons c t =>
    exact ⟨c, t, rfl, mem_encNat_isDigit m c (he ▸ List.mem_cons_self c t)⟩

/-- Characters that can begin a JSON value produced by the encoder. -/
def isValHead (c : Char) : Bool :=
  c = 'n' ∨ c = 't' ∨ c = 'f' ∨ c = '"' ∨ c = '[' ∨ c = '{' ∨ c = '-'
    ∨ c.isDigit

theorem encVal_head (v : JSValue) :
    ∃ c t, encVal v = c :: t ∧ isValHead c = true := by
  cases v with
  | undef => exact ⟨'n', ['u', 'l', 'l'], by simp [encVal, litNull], by decide⟩
  | null => exact ⟨'n', ['u', 'l', 'l'], by simp [encVal, litNull], by decide⟩
  | bool b => cases b with
    | true => exact ⟨'t', ['r', 'u', 'e'], by simp [encVal, litTrue], by decide⟩
    | false => exact ⟨'f', ['a', 'l', 's', 'e'], by simp [encVal, litFalse], by decide⟩
  | num n =>
    by_cases hn : n < 0
    · exact ⟨'-', encNat n.natAbs, by simp [encVal, encInt, hn], by decide⟩
    · obtain ⟨c, t, hct, hd⟩ := encNat_head n.toNat
      refine ⟨c, t, by simp [encVal, encInt, hn, hct], ?_⟩
      simp [isValHead, hd]
  | str s =>
    exact ⟨'"', escapeStr s.data ++ ['"'], by simp [encVal], by decide⟩
  | arr xs => cases xs with
    | nil => exact ⟨'[', [']'], by simp [encVal], by decide⟩
    | cons x xs =>
      exact ⟨'[', (encVal x ++ encArr xs) ++ [']'], by simp [encVal], by decide⟩
  | obj fs => cases fs with
    | nil => exact ⟨'{', ['}'], by simp [encVal], by decide⟩
    | cons k v fs =>
      exact ⟨'{', (encField k v ++ encObj fs) ++ ['}'], by simp [encVal], by decide⟩

mutual

/-- Structural size of a value, used as the fuel bound for the parser. -/
def jsizeV : JSValue → Nat
  | .arr xs => 1 + jsizeA xs
  | .obj fs => 1 + jsizeO fs
  | _ => 1

/-- Structural size of an array. -/
def jsizeA : JSArr → Nat
  | .nil => 1
  | .cons x xs => 1 + jsizeV x + jsizeA xs

/-- Structural size of an object. -/
def jsizeO : JSObj → Nat
  | .nil => 1
  | .cons _ v fs => 1 + jsizeV v + jsizeO fs

end

theorem jsizeV_pos (v : JSValue) : 1 ≤ jsizeV v := by
  cases v <;> simp [jsizeV]

theorem jsizeA_pos (xs : JSArr) : 1 ≤ jsizeA xs := by
  cases xs <;> simp [jsizeA] <;> omega

theorem jsizeO_pos (fs : JSObj) : 1 ≤ jsizeO fs := by
  cases fs <;> simp [jsizeO] <;> omega

theorem noDigitStart_encArr (xs : JSArr) (rest : List Char) :
    noDigitStart (encArr xs ++ (']' :: rest)) = true := by
  cases xs with
  | nil => simp [encArr, noDigitStart]
  | cons x xs => simp [encArr, noDigitStart]

theorem noDigitStart_encObj (fs : JSObj) (rest : List Char) :
    noDigitStart (encObj fs ++ ('}' :: rest)) = true := by
  cases fs with
  | nil => simp [encObj, noDigitStart]
  | cons k v fs => simp [encObj, noDigitStart]

theorem ne_of_isValHead {c d : Char} (h : isValHead c = true)
    (h2 : isValHead d = false) : ¬ c = d := by
  intro he
  rw [he, h2] at h
  cases h

/-- Round trip of the JSON model, by induction on the parser fuel: parsing
an encoded serializable value (mode .pv), an encoded nonempty run of
array elements up to the closing bracket (mode .pa), or an encoded
nonempty run of object fields up to the closing brace (mode .po), returns
exactly the encoded data and the untouched remainder. -/
theorem parse_encVal_master : ∀ fuel : Nat,
    (∀ v rest, noUndefV v = true → jsizeV v < fuel → noDigitStart rest = true →
      parseAux fuel .pv (encVal v ++ rest) = some (.val v, rest))
    ∧ (∀ x xs rest, noUndefV x = true → noUndefA xs = true →
        jsizeV x + jsizeA xs < fuel →
        parseAux fuel .pa (encVal x ++ (encArr xs ++ (']' :: rest))) =
          some (.elems (.cons x xs), rest))
    ∧ (∀ k v fs rest, noUndefV v = true → noUndefO fs = true →
        jsizeV v + jsizeO fs < fuel →
        parseAux fuel .po (encField k v ++ (encObj fs ++ ('}' :: rest))) =
          some (.fields (.cons k v fs), rest)) := by
  intro fuel
  induction fuel with
  | zero =>
    refine ⟨?_, ?_, ?_⟩
    · intro v rest _ hsz _
      omega
    · intro x xs rest _ _ hsz
      omega
    · intro k v fs rest _ _ hsz
      omega
  | succ fuel ih =>
    obtain ⟨ih1, ih2, ih3⟩ := ih
    refine ⟨?_, ?_, ?_⟩
    · intro v rest hnu hsz hnd
      cases v with
      | undef => simp [noUndefV] at hnu
      | null =>
        rw [show encVal JSValue.null = ['n', 'u', 'l', 'l'] by simp [encVal, litNull]]
        unfold parseAux
        rw [if_pos (List.take_left' (by rfl)), List.drop_left' (by rfl)]
      | bool b =>
        cases b with
        | true =>
          rw [show encVal (JSValue.bool true) = ['t', 'r', 'u', 'e'] by
            simp [encVal, litTrue]]
          unfold parseAux
          rw [if_neg (by
              rw [show ((['t', 'r', 'u', 'e'] : List Char) ++ rest).take 4
                    = ['t', 'r', 'u', 'e'] from rfl]
              decide),
            if_pos (List.take_left' (by rfl)), List.drop_left' (by rfl)]
        | false =>
          rw [show encVal (JSValue.bool false) = ['f', 'a', 'l', 's', 'e'] by
            simp [encVal, litFalse]]
          unfold parseAux
          rw [if_neg (by
              rw [show ((['f', 'a', 'l', 's', 'e'] : List Char) ++ rest).take 4
                    = ['f', 'a', 'l', 's'] from rfl]
              decide),
            if_neg (by
              rw [show ((['f', 'a', 'l', 's', 'e'] : List Char) ++ rest).take 4
                    = ['f', 'a', 'l', 's'] from rfl]
              decide),
            if_pos (show ((['f', 'a', 'l', 's', 'e'] : List Char) ++ rest).take 5
                = ['f', 'a', 'l', 's', 'e'] from rfl),
            show ((['f', 'a', 'l', 's', 'e'] : List Char) ++ rest).drop 5 = rest
              from rfl]
      | num n =>
        by_cases hn : n < 0
        · have hin : encVal (.num n) ++ rest
              = '-' :: (encNat n.natAbs ++ rest) := by
            simp [encVal, encInt, hn]
          rw [hin]
          unfold parseAux
          rw [if_neg (take_ne_of_head_ne (by decide) (by decide) _ _),
            if_neg (take_ne_of_head_ne (by decide) (by decide) _ _),
            if_neg (take_ne_of_head_ne (by decide) (by decide) _ _)]
          dsimp only
          rw [if_neg (by decide), if_neg (by decide), if_neg (by decide),
            if_pos rfl, parseNum_encNat n.natAbs hnd]
          dsimp only
          rw [show ((n.natAbs : Int)) = -n from by omega, neg_neg]
        · obtain ⟨c, t, hct, hd⟩ := encNat_head n.toNat
          have henc : encVal (.num n) = encNat n.toNat := by
            simp [encVal, encInt, hn]
          have hin : encVal (.num n) ++ rest = c :: (t ++ rest) := by
            rw [henc, hct]
            rfl
          rw [hin]
          unfold parseAux
          rw [if_neg (take_ne_of_head_ne (ne_of_isDigit hd (by decide))
              (by decide) _ _),
            if_neg (take_ne_of_head_ne (ne_of_isDigit hd (by decide))
              (by decide) _ _),
            if_neg (take_ne_of_head_ne (ne_of_isDigit hd (by decide))
              (by decide) _ _)]
          dsimp only
          rw [if_neg (ne_of_isDigit hd (by decide)),
            if_neg (ne_of_isDigit hd (by decide)),
            if_neg (ne_of_isDigit hd (by decide)),
            if_neg (ne_of_isDigit hd (by decide)),
            if_pos hd, ← hin, henc, parseNum_encNat n.toNat hnd]
          dsimp only
          rw [Int.toNat_of_nonneg (by omega)]
      | str s =>
        have hin : encVal (.str s) ++ rest
            = '"' :: (escapeStr s.data ++ '"' :: rest) := by
          simp [encVal]
        rw [hin]
        unfold parseAux
        rw [if_neg (take_ne_of_head_ne (by decide) (by decide) _ _),
          if_neg (take_ne_of_head_ne (by decide) (by decide) _ _),
          if_neg (take_ne_of_head_ne (by decide) (by decide) _ _)]
        dsimp only
        rw [if_pos rfl, parseStrBody_escape s.data rest]
      | arr xs =>
        cases xs with
        | nil =>
          have hf : 0 < fuel := by
            simp only [jsizeV] at hsz
            have := jsizeA_pos JSArr.nil
            omega
          obtain ⟨f2, rfl⟩ : ∃ f2, fuel = f2 + 1 := ⟨fuel - 1, by omega⟩
          rw [show encVal (.arr .nil) ++ rest = '[' :: (']' :: rest) by
            simp [encVal]]
          unfold parseAux
          rw [if_neg (take_ne_of_head_ne (by decide) (by decide) _ _),
            if_neg (take_ne_of_head_ne (by decide) (by decide) _ _),
            if_neg (take_ne_of_head_ne (by decide) (by decide) _ _)]
          dsimp only
          rw [if_neg (by decide), if_pos rfl,
            show parseAux (f2 + 1) PMode.pa (']' :: rest)
              = some (.elems .nil, rest) from rfl]
        | cons x xs =>
          rw [show encVal (.arr (.cons x xs)) ++ rest
              = '[' :: (encVal x ++ (encArr xs ++ (']' :: rest))) by
            simp [encVal]]
          unfold parseAux
          rw [if_neg (take_ne_of_head_ne (by decide) (by decide) _ _),
            if_neg (take_ne_of_head_ne (by decide) (by decide) _ _),
            if_neg (take_ne_of_head_ne (by decide) (by decide) _ _)]
          dsimp only
          simp only [noUndefV, noUndefA, Bool.and_eq_true] at hnu
          simp only [jsizeV, jsizeA] at hsz
          rw [if_neg (by decide), if_pos rfl,
            ih2 x xs rest hnu.1 hnu.2 (by omega)]
      | obj fs =>
        cases fs with
        | nil =>
          have hf : 0 < fuel := by
            simp only [jsizeV] at hsz
            have := jsizeO_pos JSObj.nil
            omega
          obtain ⟨f2, rfl⟩ : ∃ f2, fuel = f2 + 1 := ⟨fuel - 1, by omega⟩
          rw [show encVal (.obj .nil) ++ rest = '{' :: ('}' :: rest) by
            simp [encVal]]
          unfold parseAux
          rw [if_neg (take_ne_of_head_ne (by decide) (by decide) _ _),
            if_neg (take_ne_of_head_ne (by decide) (by decide) _ _),
            if_neg (take_ne_of_head_ne (by decide) (by decide) _ _)]
          dsimp only
          rw [if_neg (by decide), if_neg (by decide), if_pos rfl,
            show parseAux (f2 + 1) PMode.po ('}' :: rest)
              = some (.fields .nil, rest) from rfl]
        | cons k v fs =>
          rw [show encVal (.obj (.cons k v fs)) ++ rest
              = '{' :: (encField k v ++ (encObj fs ++ ('}' :: rest))) by
            simp [encVal]]
          unfold parseAux
          rw [if_neg (take_ne_of_head_ne (by decide) (by decide) _ _),
            if_neg (take_ne_of_head_ne (by decide) (by decide) _ _),
            if_neg (take_ne_of_head_ne (by decide) (by decide) _ _)]
          dsimp only
          simp only [noUndefV, noUndefO, Bool.and_eq_true] at hnu
          simp only [jsizeV, jsizeO] at hsz
          rw [if_neg (by decide), if_neg (by decide), if_pos rfl,
            ih3 k v fs rest hnu.1 hnu.2 (by omega)]
    · intro x xs rest hnux hnuxs hsz
      obtain ⟨c, t, hct, hh⟩ := encVal_head x
      have hin : encVal x ++ (encArr xs ++ (']' :: rest))
          = c :: (t ++ (encArr xs ++ (']' :: rest))) := by
        rw [hct]
        rfl
      rw [hin]
      unfold parseAux
      dsimp only
      have h2 := jsizeA_pos xs
      rw [if_neg (ne_of_isValHead hh (by decide)), ← hin,
        ih1 x _ hnux (by omega) (noDigitStart_encArr xs rest)]
      cases xs with
      | nil =>
        rw [show encArr JSArr.nil ++ (']' :: rest) = ']' :: rest by
          simp [encArr]]
        dsimp only
        rw [if_neg (by decide), if_pos rfl]
      | cons y ys =>
        simp only [noUndefA, Bool.and_eq_true] at hnuxs
        simp only [jsizeA] at hsz h2
        have h3 := jsizeV_pos x
        have h4 := jsizeV_pos y
        rw [show encArr (JSArr.cons y ys) ++ (']' :: rest)
            = ',' :: (encVal y ++ (encArr ys ++ (']' :: rest))) by
          simp [encArr]]
        dsimp only
        rw [if_pos rfl, ih2 y ys rest hnuxs.1 hnuxs.2 (by omega)]
    · intro k v fs rest hnuv hnufs hsz
      have hin : encField k v ++ (encObj fs ++ ('}' :: rest))
          = '"' :: (escapeStr k.data ++
              ('"' :: ':' :: (encVal v ++ (encObj fs ++ ('}' :: rest))))) := by
        simp [encField]
      rw [hin]
      unfold parseAux
      dsimp only
      have h2 := jsizeO_pos fs
      rw [if_neg (by decide), if_pos rfl, parseStrBody_escape k.data _]
      dsimp only
      rw [if_pos rfl, ih1 v _ hnuv (by omega) (noDigitStart_encObj fs rest)]
      cases fs with
      | nil =>
        rw [show encObj JSObj.nil ++ ('}' :: rest) = '}' :: rest by
          simp [encObj]]
        dsimp only
        rw [if_neg (by decide), if_pos rfl]
      | cons k2 v2 fs2 =>
        simp only [noUndefO, Bool.and_eq_true] at hnufs
        simp only [jsizeO] at hsz h2
        have h3 := jsizeV_pos v
        have h4 := jsizeV_pos v2
        rw [show encObj (JSObj.cons k2 v2 fs2) ++ ('}' :: rest)
            = ',' :: (encField k2 v2 ++ (encObj fs2 ++ ('}' :: rest))) by
          simp [encObj]]
        dsimp only
        rw [if_pos rfl, ih3 k2 v2 fs2 rest hnufs.1 hnufs.2 (by omega)]

theorem encInt_length_pos (n : Int) : 1 ≤ (encInt n).length := by
  unfold encInt
  by_cases hn : n < 0
  · simp [hn]
  · rw [if_neg hn]
    have := encNat_ne_nil n.toNat
    cases he : encNat n.toNat with
    | nil => exact absurd he this
    | cons c t => simp [he]

/-- The parser fuel bound: the structural size of a value is at most twice
the length of its encoding (with a slack of two for element runs). -/
theorem jsize_le_encLength : ∀ N : Nat,
    (∀ v : JSValue, jsizeV v ≤ N → jsizeV v ≤ 2 * (encVal v).length)
    ∧ (∀ xs : JSArr, jsizeA xs ≤ N → jsizeA xs ≤ 2 * (encArr xs).length + 2)
    ∧ (∀ fs : JSObj, jsizeO fs ≤ N → jsizeO fs ≤ 2 * (encObj fs).length + 2) := by
  intro N
  induction N with
  | zero =>
    refine ⟨?_, ?_, ?_⟩
    · intro v h
      have := jsizeV_pos v
      omega
    · intro xs h
      have := jsizeA_pos xs
      omega
    · intro fs h
      have := jsizeO_pos fs
      omega
  | succ N ih =>
    obtain ⟨ih1, ih2, ih3⟩ := ih
    refine ⟨?_, ?_, ?_⟩
    · intro v hN
      cases v with
      | undef => simp [encVal, jsizeV]
      | null => simp [encVal, jsizeV]
      | bool b => cases b <;> simp [encVal, jsizeV]
      | num n =>
        have := encInt_length_pos n
        simp only [encVal, jsizeV]
        omega
      | str s =>
        simp [encVal, jsizeV]
        omega
      | arr xs =>
        cases xs with
        | nil => simp [encVal, jsizeV, jsizeA]
        | cons x xs =>
          simp only [jsizeV, jsizeA] at hN ⊢
          have hpx := jsizeV_pos x
          have hpxs := jsizeA_pos xs
          have hx := ih1 x (by omega)
          have hxs := ih2 xs (by omega)
          simp only [encVal, List.length_append, List.length_cons]
          omega
      | obj fs =>
        cases fs with
        | nil => simp [encVal, jsizeV, jsizeO]
        | cons k v fs =>
          simp only [jsizeV, jsizeO] at hN ⊢
          have hpv := jsizeV_pos v
          have hpfs := jsizeO_pos fs
          have hv := ih1 v (by omega)
          have hfs := ih3 fs (by omega)
          simp only [encVal, encField, List.length_append, List.length_cons]
          simp only [encField, List.length_append, List.length_cons] at hfs ⊢
          omega
    · intro xs hN
      cases xs with
      | nil => simp [encArr, jsizeA]
      | cons x xs =>
        simp only [jsizeA] at hN ⊢
        have hpx := jsizeV_pos x
        have hpxs := jsizeA_pos xs
        have hx := ih1 x (by omega)
        have hxs := ih2 xs (by omega)
        simp only [encArr, List.length_append, List.length_cons]
        omega
    · intro fs hN
      cases fs with
      | nil => simp [encObj, jsizeO]
      | cons k v fs =>
        simp only [jsizeO] at hN ⊢
        have hpv := jsizeV_pos v
        have hpfs := jsizeO_pos fs
        have hv := ih1 v (by omega)
        have hfs := ih3 fs (by omega)
        simp only [encObj, encField, List.length_append, List.length_cons]
        omega

/-- Round trip of the modelled JSON builtins on serializable values. -/
theorem json_parse_stringify (v : JSValue) (hnu : noUndefV v = true) :
    Json.parse (Json.stringify v) = some v := by
  have hlen : jsizeV v ≤ 2 * (encVal v).length :=
    (jsize_le_encLength (jsizeV v)).1 v le_rfl
  have hmain := (parse_encVal_master (2 * (encVal v).length + 2)).1 v []
    hnu (by omega) rfl
  rw [List.append_nil] at hmain
  unfold Json.parse Json.stringify
  rw [show (String.mk (encVal v)).data = encVal v from rfl, hmain]

theorem string_eta (s : String) : String.mk s.data = s := rfl

/-! ### Claim C6: structured value round trip -/

/-- C6: for every JSON-serializable non-string value s, `set(name, s)`
stores the string `json:` followed by the JSON encoding of s through the
codec's set, and a subsequent `get(name, default)` returns a value equal
to s, for any name, default and options. -/
theorem c6_json_roundtrip (name : String) (s : JSValue) (d : JSValue)
    (opts : CookieOptions) (st : Store)
    (hser : noUndefV s = true) (hstr : ∀ x : String, ¬ s = .str x) :
    Cookies.set name s opts st =
      (JSCookies.set name ("json:" ++ Json.stringify s) opts st,
       [CodecCall.setC name ("json:" ++ Json.stringify s) opts])
    ∧ Cookies.get name d (Cookies.set name s opts st).1 = .ok s := by
  have hset : Cookies.set name s opts st =
      (JSCookies.set name ("json:" ++ Json.stringify s) opts st,
       [CodecCall.setC name ("json:" ++ Json.stringify s) opts]) := by
    cases s with
    | undef => simp [noUndefV] at hser
    | str x => exact absurd rfl (hstr x)
    | null => rfl
    | bool b => rfl
    | num n => rfl
    | arr xs => rfl
    | obj fs => rfl
  refine ⟨hset, ?_⟩
  rw [hset]
  show Cookies.get name d (storePut st name ("json:" ++ Json.stringify s)) = _
  rw [cookies_get_storePut, if_pos (take5_json _), drop5_json, string_eta,
    json_parse_stringify s hser]

/-- Witness for C6 at the spec's own scenario: set("age", 20) stores
json:20 and get("age", 0) returns 20. -/
theorem c6_witness :
    (noUndefV (.num 20) = true ∧ ∀ x : String, ¬ JSValue.num 20 = .str x)
    ∧ Cookies.get "age" (.num 0) (Cookies.set "age" (.num 20) {} []).1 =
        .ok (.num 20) :=
  ⟨⟨by simp [noUndefV], fun x h => JSValue.noConfusion h⟩,
   (c6_json_roundtrip "age" (.num 20) (.num 0) {} [] (by simp [noUndefV])
      (fun x h => JSValue.noConfusion h)).2⟩

end UseCookie
